import Mathlib

/-!
Verification development for the lottie-player rendering controller.

The definitions below are a shallow embedding of the TypeScript sources:
`src/player.ts` (scheduler and registry), `src/lib/Player.ts` (player
instances), `src/lib/worker-pool.ts` (worker pool and RPC transport),
`src/worker.ts` (worker-side rasterizer front end) and the queue-based
transport variant (`sendMessage` / `initWorker`).

Times are modelled as rationals (JS numbers holding milliseconds), pixel
buffers as lists of bytes, and the DOM canvas of a player by its width and
height.  JS `%` on numbers is truncated remainder, i.e. `Int.tmod`.
-/

namespace LottieSpec

/-- Pixel data of one decoded frame (`ImageData`): width, height and raw buffer. -/
structure ImageData where
  width : Int
  height : Int
  data : List Nat
deriving DecidableEq, Repr

/-- A render request entry (`FrameRequest` in `types.ts`): group id, frame index and output size. -/
structure FrameRequest where
  id : Nat
  width : Int
  height : Int
  frame : Int
deriving DecidableEq, Repr

/-- A rendered frame returned by a worker (`FrameResponse`): the request fields plus the pixel buffer. -/
structure FrameResponse where
  id : Nat
  width : Int
  height : Int
  frame : Int
  data : List Nat
deriving DecidableEq, Repr

/-- A player instance (`Player` in `src/lib/Player.ts`).  `frame = -1` until the
first paint, `totalFrames = -1` until the group is mounted.  `width`/`height`
are the canvas pixel dimensions. -/
structure Player where
  id : Nat
  width : Int
  height : Int
  loop : Bool
  paused : Bool
  frame : Int
  totalFrames : Int
  frameRate : ℚ
deriving DecidableEq, Repr

/-- Player.frameTime getter: `1000 / this.frameRate` (milliseconds per frame). -/
def frameTime (p : Player) : ℚ := 1000 / p.frameRate

/-- Player.lastFrame getter: `this.totalFrames - 1`. -/
def lastFrame (p : Player) : Int := p.totalFrames - 1

/-- isPlaying from `src/player.ts`: `player.paused ? false : player.loop || (player.frame < player.totalFrames - 1)`. -/
def isPlaying (p : Player) : Bool :=
  if p.paused then false else p.loop || decide (p.frame < p.totalFrames - 1)

/-- isFinished from `src/player.ts`: `!player.loop && player.frame === player.lastFrame`. -/
def isFinished (p : Player) : Bool :=
  !p.loop && decide (p.frame = lastFrame p)

/-- toFrameRequest from `src/player.ts`: derives the target frame from the
elapsed time; `frame = Math.floor(elapsed / player.frameTime)` then
`player.loop ? frame % player.lastFrame : Math.min(frame, player.lastFrame)`. -/
def toFrameRequest (p : Player) (elapsed : ℚ) : FrameRequest :=
  let frame0 : Int := ⌊elapsed / frameTime p⌋
  let frame : Int := if p.loop then Int.tmod frame0 (lastFrame p) else min frame0 (lastFrame p)
  { id := p.id, width := p.width, height := p.height, frame := frame }

/-- Modelled from the claim text of C1: floor of elapsed over frame duration,
wrapped modulo the total frame count when looping, else clamped to the last
frame.  This is the spec-side formula, to be compared with `toFrameRequest`. -/
def claimTargetFrame (p : Player) (elapsed : ℚ) : Int :=
  let frame0 : Int := ⌊elapsed / frameTime p⌋
  if p.loop then Int.tmod frame0 p.totalFrames else min frame0 (p.totalFrames - 1)

/-- Amended formula for C1: the code wraps modulo `lastFrame = totalFrames - 1`,
not modulo the total frame count, when the player loops. -/
def amendedTargetFrame (p : Player) (elapsed : ℚ) : Int :=
  let frame0 : Int := ⌊elapsed / frameTime p⌋
  if p.loop then Int.tmod frame0 (p.totalFrames - 1) else min frame0 (p.totalFrames - 1)

/-- Helper: evaluate the floor of a rational that is a cast integer. -/
theorem floor_eq_of_eq_intCast {q : ℚ} {n : ℤ} (h : q = (n : ℚ)) : ⌊q⌋ = n := by
  rw [h, Int.floor_intCast]

/-- Concrete looping player used to separate the code from the C1 claim:
3 total frames, 1000 fps so that one frame lasts exactly 1 ms. -/
def playerC1 : Player :=
  { id := 1, width := 10, height := 10, loop := true, paused := false,
    frame := 0, totalFrames := 3, frameRate := 1000 }

/-- C1 counterexample: with 3 total frames and an elapsed time of 2 frame
durations the code produces frame `2 % 2 = 0`, while the claim's formula
(wrap modulo the total frame count) produces `2 % 3 = 2`. -/
theorem toFrameRequest_ne_claimTargetFrame :
    (toFrameRequest playerC1 2).frame ≠ claimTargetFrame playerC1 2 := by
  have hfloor : (⌊(2 : ℚ) / frameTime playerC1⌋ : ℤ) = 2 := by
    apply floor_eq_of_eq_intCast
    norm_num [frameTime, playerC1]
  simp only [toFrameRequest, claimTargetFrame, hfloor]
  norm_num [playerC1, lastFrame]
  decide

/-- C1 (amended): for every player and elapsed time, the target frame computed
by `toFrameRequest` is the floor of elapsed over the frame duration, wrapped
modulo `totalFrames - 1` when the player loops, else clamped to
`totalFrames - 1`; the request carries the player's id and output size. -/
theorem toFrameRequest_target_amended (p : Player) (elapsed : ℚ) :
    (toFrameRequest p elapsed).frame = amendedTargetFrame p elapsed
    ∧ (toFrameRequest p elapsed).id = p.id
    ∧ (toFrameRequest p elapsed).width = p.width
    ∧ (toFrameRequest p elapsed).height = p.height := by
  refine ⟨?_, rfl, rfl, rfl⟩
  simp only [toFrameRequest, amendedTargetFrame, lastFrame]

/-- Scheduler configuration (`src/lib/config.ts`): frame-cache enablement and
the soft per-tick paint budget (`maxRender`). -/
structure SchedConfig where
  cacheFrames : Bool
  maxRender : Int
deriving DecidableEq, Repr

/-- One registry entry (`PlayerRegistryItem` in `src/player.ts`): the group id,
its players, the last scheduled frame, the playback start timestamp (`0` while
unset), the optional frame cache and the optional worker (by id). -/
structure RegistryItem where
  id : Nat
  players : List Player
  frame : Int
  frameRate : ℚ
  totalFrames : Int
  start : ℚ
  frameCache : Option (List (Int × ImageData))
  worker : Option Nat
deriving DecidableEq, Repr

/-- Lookup of `item.frameCache[frame]` (sparse JS array modelled as an
association list, later writes shadowing earlier ones). -/
def cacheLookup (cache : List (Int × ImageData)) (frame : Int) : Option ImageData :=
  match cache.find? (fun e => e.1 = frame) with
  | some e => some e.2
  | none => none

/-- getCachedFrame from `src/player.ts`: returns the cached buffer for the
requested frame when present and at least as large as requested. -/
def getCachedFrame (item : RegistryItem) (req : FrameRequest) : Option ImageData :=
  match item.frameCache with
  | none => none
  | some cache =>
    match cacheLookup cache req.frame with
    | some f => if req.width ≤ f.width ∧ req.height ≤ f.height then some f else none
    | none => none

/-- setCachedFrame from `src/player.ts`: stores a rendered frame in the group's
cache (creating the cache on first use) when the group is mounted. -/
def setCachedFrame (item : RegistryItem) (frame : Int) (image : ImageData) : RegistryItem :=
  if item.totalFrames ≠ -1 then
    let cache0 := item.frameCache.getD []
    let cache1 := (frame, image) :: cache0.filter (fun e => decide (e.1 ≠ frame))
    { item with frameCache := some cache1 }
  else item

/-- shouldRenderPlayer from `src/player.ts`: `player.totalFrames !== -1 && player.frame !== frame`. -/
def shouldRenderPlayer (p : Player) (frame : Int) : Bool :=
  decide (p.totalFrames ≠ -1) && decide (p.frame ≠ frame)

/-- shouldRenderFrame from `src/player.ts`: some player of the group still has
to render the given frame. -/
def shouldRenderFrame (item : RegistryItem) (frame : Int) : Bool :=
  item.players.any (fun p => shouldRenderPlayer p frame)

/-- Start timestamp used by the tick for a group: re-anchored (back-dated by the
already elapsed offset `item.frame % lastFrame * frameTime`) when unset. -/
def scanStart (item : RegistryItem) (fp : Player) (time : ℚ) : ℚ :=
  if item.start = 0 then time - (Int.tmod item.frame (lastFrame fp) : ℚ) * frameTime fp
  else item.start

/-- The frame request the tick computes for a group whose first playing player
is `fp`: `toFrameRequest(firstPlaying, time - item.start)`. -/
def scanReq (item : RegistryItem) (fp : Player) (time : ℚ) : FrameRequest :=
  toFrameRequest fp (time - scanStart item fp time)

/-- What the per-group part of a tick decides to do (`render` in `src/player.ts`,
registry loop): nothing (no worker or no playing player), paint from cache,
queue a batch request for the worker, or skip a redundant frame. -/
inductive ScanAction where
  | idle
  | fromCache (req : FrameRequest) (img : ImageData)
  | batch (req : FrameRequest)
  | skip (req : FrameRequest)
deriving DecidableEq, Repr

/-- The per-group scan of one tick (`render` in `src/player.ts`): finds the
first playing player, anchors the start timestamp, derives the target frame,
consults the cache, otherwise queues or skips; `item.frame` is set to the
target frame, or `item.start` reset when nothing is playing. -/
def scanGroup (item : RegistryItem) (time : ℚ) : RegistryItem × ScanAction :=
  match item.worker with
  | none => ({ item with start := 0 }, ScanAction.idle)
  | some _ =>
    match item.players.find? isPlaying with
    | none => ({ item with start := 0 }, ScanAction.idle)
    | some fp =>
      let req := scanReq item fp time
      let item1 := { item with start := scanStart item fp time, frame := req.frame }
      match getCachedFrame item req with
      | some img => (item1, ScanAction.fromCache req img)
      | none =>
        if shouldRenderFrame item req.frame then (item1, ScanAction.batch req)
        else (item1, ScanAction.skip req)

/-- The registry loop of one tick: scans every group and collects the batch
requests, tagged with the group's worker id (the per-worker payload). -/
def tickScan : List RegistryItem → ℚ → List RegistryItem × List (Nat × FrameRequest)
  | [], _ => ([], [])
  | item :: rest, time =>
    match item.worker, (scanGroup item time).2 with
    | some w, ScanAction.batch req =>
      ((scanGroup item time).1 :: (tickScan rest time).1, (w, req) :: (tickScan rest time).2)
    | _, _ => ((scanGroup item time).1 :: (tickScan rest time).1, (tickScan rest time).2)

/-- Notifications a player emits while a frame is rendered. -/
inductive PEvent where
  | rendered (id : Nat)
  | pauseEv (id : Nat)
  | endEv (id : Nat)
deriving DecidableEq, Repr

/-- Player.pause: sets the paused flag and emits `pause` when not paused yet. -/
def pausePlayer (p : Player) : Player × List PEvent :=
  if p.paused then (p, []) else ({ p with paused := true }, [PEvent.pauseEv p.id])

/-- renderFrame from `src/player.ts` restricted to playback state: paints when
the budget allows (always on the initial paint), decrements the budget,
advances `player.frame`, emits `rendered` on the initial paint and, when the
player finished (non-looping at the last frame), pauses it and emits `end`.
Returns the updated player, the emitted events and the remaining budget. -/
def renderFrame (budget : Int) (p : Player) (frame : Int) : Player × List PEvent × Int :=
  let isInitial := p.frame = -1
  let shouldRender := budget = -1 ∨ budget > 0 ∨ isInitial
  let budget1 := if shouldRender ∧ budget > 0 then budget - 1 else budget
  let p1 := { p with frame := frame }
  let evs0 := if isInitial then [PEvent.rendered p.id] else []
  if isFinished p1 then
    let q := pausePlayer p1
    (q.1, evs0 ++ q.2 ++ [PEvent.endEv p.id], budget1)
  else (p1, evs0, budget1)

/-- renderGroup from `src/player.ts`, on the group's player list: paint the
frame into every playing player that still needs it, left to right, threading
the paint budget and the previously painted canvas (by player id). -/
def renderGroupGo (frame : Int) : List Player → Option Nat → Int → List Player × List PEvent × Int
  | [], _, budget => ([], [], budget)
  | p :: rest, prev, budget =>
    if isPlaying p && shouldRenderPlayer p frame then
      let r1 := renderFrame budget p frame
      let r2 := renderGroupGo frame rest (some p.id) r1.2.2
      (r1.1 :: r2.1, r1.2.1 ++ r2.2.1, r2.2.2)
    else
      let r2 := renderGroupGo frame rest prev budget
      (p :: r2.1, r2.2.1, r2.2.2)

/-- renderGroup entry point (the painted image itself does not influence the
playback bookkeeping, so only the frame index is threaded). -/
def renderGroup (players : List Player) (frame : Int) (budget : Int) :
    List Player × List PEvent × Int :=
  renderGroupGo frame players none budget

/-- renderFrameResponse from `src/player.ts`, on the group the response is for:
builds the image, stores it in the cache when caching is enabled, and paints
the group.  Returns the updated item, the events and the remaining budget. -/
def renderFrameResponse (cfg : SchedConfig) (item : RegistryItem) (payload : FrameResponse)
    (budget : Int) : RegistryItem × List PEvent × Int :=
  let image : ImageData := { width := payload.width, height := payload.height, data := payload.data }
  let item1 := if cfg.cacheFrames then setCachedFrame item payload.frame image else item
  let r := renderGroup item1.players payload.frame budget
  ({ item1 with players := r.1 }, r.2.1, r.2.2)

/-- Result of settling one worker's batched render call: the per-request
`.catch` of `render` in `src/player.ts` turns a failed dispatch into an empty
frame list (`{ frames: [] }`). -/
def renderSettle (result : Nat → Option (List FrameResponse)) (wid : Nat) : List FrameResponse :=
  match result wid with
  | some frames => frames
  | none => []

/-- The per-tick dispatch of `render` in `src/player.ts`: one render call per
worker, all settled; the frames applied this tick are the concatenation of
every settled response (a failed worker contributing nothing). -/
def renderDispatch (batches : List (Nat × List FrameRequest))
    (result : Nat → Option (List FrameResponse)) : List FrameResponse :=
  (batches.map (fun wb => renderSettle result wb.1)).flatten

/-- JS `getConfig().maxRender || -1`: a missing or zero budget means unlimited. -/
def tickBudget (cfg : SchedConfig) : Int :=
  if cfg.maxRender = 0 then -1 else cfg.maxRender

/-- One whole tick for a single-group registry: scan the group, then either
paint from cache, or dispatch the batch request to the worker (`workerOk`
tells whether the worker settled successfully, in which case the response
for the requested frame is cached and painted). -/
def tickOne (cfg : SchedConfig) (time : ℚ) (workerOk : Bool) (item : RegistryItem) :
    RegistryItem × List PEvent :=
  let s := scanGroup item time
  match s.2 with
  | ScanAction.idle => (s.1, [])
  | ScanAction.skip _ => (s.1, [])
  | ScanAction.fromCache req _ =>
    let r := renderGroup s.1.players req.frame (tickBudget cfg)
    ({ s.1 with players := r.1 }, r.2.1)
  | ScanAction.batch req =>
    if workerOk then
      let payload : FrameResponse :=
        { id := req.id, width := req.width, height := req.height, frame := req.frame, data := [] }
      let r := renderFrameResponse cfg s.1 payload (tickBudget cfg)
      (r.1, r.2.1)
    else (s.1, [])

/-- Number of `end` notifications in an event list. -/
def countEnds (evs : List PEvent) : Nat :=
  (evs.filter (fun e => match e with | PEvent.endEv _ => true | _ => false)).length

/-- Run a sequence of ticks (time and worker outcome per tick) over a
single-group registry, counting the emitted `end` notifications. -/
def runTicks (cfg : SchedConfig) : List (ℚ × Bool) → RegistryItem → RegistryItem × Nat
  | [], item => (item, 0)
  | t :: rest, item =>
    let r1 := tickOne cfg t.1 t.2 item
    let r2 := runTicks cfg rest r1.1
    (r2.1, countEnds r1.2 + r2.2)

/-- Playback invariant of a single non-looping player with `n` total frames:
never past the last frame, and paused exactly when the last frame is rendered. -/
def GoodP (n : Int) (p : Player) : Prop :=
  p.loop = false ∧ p.totalFrames = n ∧ p.frame ≤ n - 1 ∧ (p.paused = true ↔ p.frame = n - 1)

/-- Whether a player has rendered its last frame (counts finished players). -/
def finScore (p : Player) : Nat :=
  if p.frame = p.totalFrames - 1 then 1 else 0

theorem renderGroup_singleton (p : Player) (frame : Int) (budget : Int) :
    renderGroup [p] frame budget =
      if isPlaying p && shouldRenderPlayer p frame then
        ([(renderFrame budget p frame).1], (renderFrame budget p frame).2.1,
          (renderFrame budget p frame).2.2)
      else ([p], [], budget) := by
  simp only [renderGroup, renderGroupGo]
  split <;> simp

theorem renderFrame_shape (budget : Int) (p : Player) (frame : Int) (n : Int)
    (hloop : p.loop = false) (htot : p.totalFrames = n) (hpa : p.paused = false) :
    ((renderFrame budget p frame).1.loop = false
      ∧ (renderFrame budget p frame).1.totalFrames = n
      ∧ (renderFrame budget p frame).1.frame = frame)
    ∧ (frame = n - 1 →
        (renderFrame budget p frame).1.paused = true
        ∧ countEnds (renderFrame budget p frame).2.1 = 1)
    ∧ (frame ≠ n - 1 →
        (renderFrame budget p frame).1.paused = false
        ∧ countEnds (renderFrame budget p frame).2.1 = 0) := by
  by_cases hf : frame = n - 1 <;>
    by_cases hinit : p.frame = -1 <;>
      simp [renderFrame, isFinished, lastFrame, hf, hinit, pausePlayer, hpa, htot, hloop,
        countEnds, List.filter_append]

theorem tickOne_paused (cfg : SchedConfig) (t : ℚ) (ok : Bool) (item : RegistryItem) (p : Player)
    (hps : item.players = [p]) (hp : p.paused = true) :
    tickOne cfg t ok item = ({ item with start := 0 }, [])
    ∧ (scanGroup item t).2 = ScanAction.idle := by
  have hplay : isPlaying p = false := by simp [isPlaying, hp]
  have hscan : scanGroup item t = ({ item with start := 0 }, ScanAction.idle) := by
    unfold scanGroup
    cases hw : item.worker with
    | none => rfl
    | some w => simp [hps, List.find?, hplay]
  constructor
  · unfold tickOne
    rw [hscan]
  · rw [hscan]

/-- The updated registry item when the scan finds a playing player. -/
def scanUpd (item : RegistryItem) (fp : Player) (time : ℚ) : RegistryItem :=
  { item with start := scanStart item fp time, frame := (scanReq item fp time).frame }

theorem scanGroup_cache (item : RegistryItem) (fp : Player) (t : ℚ) (w : Nat) (img : ImageData)
    (hw : item.worker = some w) (hfind : item.players.find? isPlaying = some fp)
    (hc : getCachedFrame item (scanReq item fp t) = some img) :
    scanGroup item t = (scanUpd item fp t, ScanAction.fromCache (scanReq item fp t) img) := by
  simp [scanGroup, hw, hfind, hc, scanUpd]

theorem scanGroup_batch (item : RegistryItem) (fp : Player) (t : ℚ) (w : Nat)
    (hw : item.worker = some w) (hfind : item.players.find? isPlaying = some fp)
    (hc : getCachedFrame item (scanReq item fp t) = none)
    (hsr : shouldRenderFrame item (scanReq item fp t).frame = true) :
    scanGroup item t = (scanUpd item fp t, ScanAction.batch (scanReq item fp t)) := by
  simp [scanGroup, hw, hfind, hc, hsr, scanUpd]

theorem scanGroup_skip (item : RegistryItem) (fp : Player) (t : ℚ) (w : Nat)
    (hw : item.worker = some w) (hfind : item.players.find? isPlaying = some fp)
    (hc : getCachedFrame item (scanReq item fp t) = none)
    (hsr : shouldRenderFrame item (scanReq item fp t).frame = false) :
    scanGroup item t = (scanUpd item fp t, ScanAction.skip (scanReq item fp t)) := by
  simp [scanGroup, hw, hfind, hc, hsr, scanUpd]

theorem scanGroup_noworker (item : RegistryItem) (t : ℚ) (hw : item.worker = none) :
    scanGroup item t = ({ item with start := 0 }, ScanAction.idle) := by
  simp [scanGroup, hw]

theorem setCachedFrame_players (item : RegistryItem) (frame : Int) (image : ImageData) :
    (setCachedFrame item frame image).players = item.players := by
  unfold setCachedFrame
  split <;> rfl

theorem tickOne_step (cfg : SchedConfig) (t : ℚ) (ok : Bool) (item : RegistryItem)
    (p : Player) (n : Int) (hps : item.players = [p]) (hg : GoodP n p) :
    ∃ p1, (tickOne cfg t ok item).1.players = [p1] ∧ GoodP n p1 ∧
      countEnds (tickOne cfg t ok item).2 + finScore p = finScore p1 := by
  obtain ⟨hloop, htot, hle, hiff⟩ := hg
  by_cases hpause : p.paused = true
  · refine ⟨p, ?_, ⟨hloop, htot, hle, hiff⟩, ?_⟩
    · rw [(tickOne_paused cfg t ok item p hps hpause).1]
      simpa using hps
    · rw [(tickOne_paused cfg t ok item p hps hpause).1]
      simp [countEnds]
  · -- the player is playable: it is strictly before the last frame
    have hpa : p.paused = false := by
      cases h : p.paused
      · rfl
      · exact absurd h hpause
    have hne : p.frame ≠ n - 1 := fun h => hpause (hiff.mpr h)
    have hlt : p.frame < n - 1 := lt_of_le_of_ne hle hne
    have hplay : isPlaying p = true := by
      simp [isPlaying, hpa, htot, hlt]
    have hfin0 : finScore p = 0 := by
      simp [finScore, htot, hne]
    -- the target frame never exceeds the last frame for a non-looping player
    have hreqf : (scanReq item p t).frame ≤ n - 1 := by
      simp [scanReq, toFrameRequest, hloop, lastFrame, htot]
    -- helper handling both paint paths (the painted image is irrelevant)
    have hpaint : ∀ frame : Int, frame ≤ n - 1 →
        ∃ p1, (renderGroup [p] frame (tickBudget cfg)).1 = [p1] ∧ GoodP n p1 ∧
          countEnds (renderGroup [p] frame (tickBudget cfg)).2.1 + finScore p = finScore p1 := by
      intro frame hfle
      rw [renderGroup_singleton]
      by_cases hsh : (isPlaying p && shouldRenderPlayer p frame) = true
      · rw [if_pos hsh]
        obtain ⟨⟨h1, h2, h3⟩, h4, h5⟩ :=
          renderFrame_shape (tickBudget cfg) p frame n hloop htot hpa
        by_cases hf : frame = n - 1
        · refine ⟨_, rfl, ⟨h1, h2, ?_, ?_⟩, ?_⟩
          · rw [h3, hf]
          · constructor
            · intro _
              rw [h3, hf]
            · intro _
              exact (h4 hf).1
          · rw [hfin0, (h4 hf).2, finScore, h3, h2, if_pos hf]
        · refine ⟨_, rfl, ⟨h1, h2, ?_, ?_⟩, ?_⟩
          · rw [h3]
            exact hfle
          · rw [(h5 hf).1, h3]
            simp [hf]
          · rw [hfin0, (h5 hf).2, finScore, h3, h2, if_neg hf]
      · rw [if_neg hsh]
        exact ⟨p, rfl, ⟨hloop, htot, hle, hiff⟩, by simp [countEnds, hfin0]⟩
    -- now run the scan
    cases hw : item.worker with
    | none =>
      unfold tickOne
      rw [scanGroup_noworker item t hw]
      exact ⟨p, by simpa using hps, ⟨hloop, htot, hle, hiff⟩, by simp [countEnds, hfin0]⟩
    | some w =>
      have hfind : item.players.find? isPlaying = some p := by
        simp [hps, List.find?, hplay]
      cases hc : getCachedFrame item (scanReq item p t) with
      | some img =>
        unfold tickOne
        rw [scanGroup_cache item p t w img hw hfind hc]
        obtain ⟨p1, hp1, hg1, hcount⟩ := hpaint (scanReq item p t).frame hreqf
        refine ⟨p1, ?_, hg1, ?_⟩
        · simpa [scanUpd, hps] using hp1
        · simpa [scanUpd, hps] using hcount
      | none =>
        by_cases hsr : shouldRenderFrame item (scanReq item p t).frame = true
        · cases ok with
          | false =>
            unfold tickOne
            rw [scanGroup_batch item p t w hw hfind hc hsr]
            exact ⟨p, by simpa [scanUpd] using hps, ⟨hloop, htot, hle, hiff⟩,
              by simp [countEnds, hfin0]⟩
          | true =>
            unfold tickOne
            rw [scanGroup_batch item p t w hw hfind hc hsr]
            obtain ⟨p1, hp1, hg1, hcount⟩ := hpaint (scanReq item p t).frame hreqf
            by_cases hcf : cfg.cacheFrames = true
            · refine ⟨p1, ?_, hg1, ?_⟩
              · simpa [renderFrameResponse, setCachedFrame_players, hcf, scanUpd, hps] using hp1
              · simpa [renderFrameResponse, setCachedFrame_players, hcf, scanUpd, hps] using hcount
            · have hcf2 : cfg.cacheFrames = false := by
                cases h : cfg.cacheFrames
                · rfl
                · exact absurd h hcf
              refine ⟨p1, ?_, hg1, ?_⟩
              · simpa [renderFrameResponse, hcf2, scanUpd, hps] using hp1
              · simpa [renderFrameResponse, hcf2, scanUpd, hps] using hcount
        · have hsr2 : shouldRenderFrame item (scanReq item p t).frame = false := by
            cases h : shouldRenderFrame item (scanReq item p t).frame
            · rfl
            · exact absurd h hsr
          unfold tickOne
          rw [scanGroup_skip item p t w hw hfind hc hsr2]
          exact ⟨p, by simpa [scanUpd] using hps, ⟨hloop, htot, hle, hiff⟩,
            by simp [countEnds, hfin0]⟩

theorem runTicks_inv (cfg : SchedConfig) (n : Int) :
    ∀ (trace : List (ℚ × Bool)) (item : RegistryItem) (p : Player),
      item.players = [p] → GoodP n p →
      ∃ p1, (runTicks cfg trace item).1.players = [p1] ∧ GoodP n p1 ∧
        (runTicks cfg trace item).2 + finScore p = finScore p1
  | [], item, p, hps, hg => ⟨p, by simpa [runTicks] using hps, hg, by simp [runTicks]⟩
  | t :: rest, item, p, hps, hg => by
    obtain ⟨p1, hp1, hg1, hc1⟩ := tickOne_step cfg t.1 t.2 item p n hps hg
    obtain ⟨p2, hp2, hg2, hc2⟩ :=
      runTicks_inv cfg n rest (tickOne cfg t.1 t.2 item).1 p1 hp1 hg1
    refine ⟨p2, ?_, hg2, ?_⟩
    · simpa [runTicks] using hp2
    · simp only [runTicks]
      omega

/-- C7: a single-player non-looping group, started fresh, emits at most one
end notification over any tick sequence; once the rendered frame reaches the
last frame the player is paused and no longer playable, exactly one end
notification has fired, and every further tick is a no-op that schedules
nothing (idle scan) until a restart. -/
theorem nonloop_end_once (cfg : SchedConfig) (trace : List (ℚ × Bool)) (item : RegistryItem)
    (p : Player) (hps : item.players = [p]) (hloop : p.loop = false) (hpa : p.paused = false)
    (hfr : p.frame = -1) (hn : 1 ≤ p.totalFrames) :
    ∃ p1, (runTicks cfg trace item).1.players = [p1]
      ∧ (runTicks cfg trace item).2 ≤ 1
      ∧ (p1.frame = p.totalFrames - 1 →
          p1.paused = true ∧ isPlaying p1 = false ∧ (runTicks cfg trace item).2 = 1)
      ∧ (p1.paused = true → ∀ (t2 : ℚ) (ok2 : Bool),
          tickOne cfg t2 ok2 (runTicks cfg trace item).1
            = ({ (runTicks cfg trace item).1 with start := 0 }, [])
          ∧ (scanGroup (runTicks cfg trace item).1 t2).2 = ScanAction.idle) := by
  have hne0 : p.frame ≠ p.totalFrames - 1 := by omega
  have hg0 : GoodP p.totalFrames p := by
    refine ⟨hloop, rfl, by omega, ?_⟩
    rw [hpa]
    simp only [Bool.false_eq_true, false_iff]
    exact hne0
  obtain ⟨p1, hp1, hg1, hcnt⟩ := runTicks_inv cfg p.totalFrames trace item p hps hg0
  have hfin0 : finScore p = 0 := by
    simp [finScore, hne0]
  have hends : (runTicks cfg trace item).2 = finScore p1 := by omega
  refine ⟨p1, hp1, ?_, ?_, ?_⟩
  · rw [hends]
    unfold finScore
    split <;> omega
  · intro hlast
    have hfin1 : finScore p1 = 1 := by
      simp [finScore, hg1.2.1, hlast]
    have hpaused : p1.paused = true := hg1.2.2.2.mpr hlast
    exact ⟨hpaused, by simp [isPlaying, hpaused], by omega⟩
  · intro hpaused t2 ok2
    exact tickOne_paused cfg t2 ok2 (runTicks cfg trace item).1 p1 hp1 hpaused

/-- Concrete non-looping player and single-player group for the C7 witness:
10 total frames, fresh (frame −1, not paused), worker mounted. -/
def playerC7 : Player :=
  { id := 3, width := 20, height := 20, loop := false, paused := false,
    frame := -1, totalFrames := 10, frameRate := 1000 }

/-- Concrete registry entry for the C7 witness. -/
def itemC7 : RegistryItem :=
  { id := 3, players := [playerC7], frame := 0, frameRate := 1000, totalFrames := 10,
    start := 0, frameCache := none, worker := some 1 }

/-- C7 witness: the theorem instantiated at a concrete fresh non-looping group
and a concrete two-tick trace, discharging each hypothesis. -/
theorem nonloop_end_once_witness :
    itemC7.players = [playerC7] ∧ playerC7.loop = false ∧ playerC7.paused = false
    ∧ playerC7.frame = -1 ∧ 1 ≤ playerC7.totalFrames
    ∧ ∃ p1, (runTicks ⟨false, 0⟩ [(5, true), (100, true)] itemC7).1.players = [p1]
      ∧ (runTicks ⟨false, 0⟩ [(5, true), (100, true)] itemC7).2 ≤ 1
      ∧ (p1.frame = playerC7.totalFrames - 1 →
          p1.paused = true ∧ isPlaying p1 = false
          ∧ (runTicks ⟨false, 0⟩ [(5, true), (100, true)] itemC7).2 = 1)
      ∧ (p1.paused = true → ∀ (t2 : ℚ) (ok2 : Bool),
          tickOne ⟨false, 0⟩ t2 ok2 (runTicks ⟨false, 0⟩ [(5, true), (100, true)] itemC7).1
            = ({ (runTicks ⟨false, 0⟩ [(5, true), (100, true)] itemC7).1 with start := 0 }, [])
          ∧ (scanGroup (runTicks ⟨false, 0⟩ [(5, true), (100, true)] itemC7).1 t2).2
              = ScanAction.idle) :=
  ⟨rfl, rfl, rfl, rfl, by decide,
    nonloop_end_once ⟨false, 0⟩ [(5, true), (100, true)] itemC7 playerC7
      rfl rfl rfl rfl (by decide)⟩

theorem scanGroup_notplaying (item : RegistryItem) (t : ℚ) (w : Nat)
    (hw : item.worker = some w) (hf : item.players.find? isPlaying = none) :
    scanGroup item t = ({ item with start := 0 }, ScanAction.idle) := by
  simp [scanGroup, hw, hf]

theorem scanGroup_batch_inv (item : RegistryItem) (t : ℚ) (req : FrameRequest)
    (h : (scanGroup item t).2 = ScanAction.batch req) :
    ∃ fp, item.players.find? isPlaying = some fp ∧ req = scanReq item fp t
      ∧ shouldRenderFrame item (scanReq item fp t).frame = true := by
  cases hw : item.worker with
  | none =>
    rw [scanGroup_noworker item t hw] at h
    simp at h
  | some w =>
    cases hf : item.players.find? isPlaying with
    | none =>
      rw [scanGroup_notplaying item t w hw hf] at h
      simp at h
    | some fp =>
      cases hc : getCachedFrame item (scanReq item fp t) with
      | some img =>
        rw [scanGroup_cache item fp t w img hw hf hc] at h
        simp at h
      | none =>
        by_cases hsr : shouldRenderFrame item (scanReq item fp t).frame = true
        · rw [scanGroup_batch item fp t w hw hf hc hsr] at h
          simp at h
          exact ⟨fp, rfl, h.symm, hsr⟩
        · have hsr2 : shouldRenderFrame item (scanReq item fp t).frame = false := by
            cases hx : shouldRenderFrame item (scanReq item fp t).frame
            · rfl
            · exact absurd hx hsr
          rw [scanGroup_skip item fp t w hw hf hc hsr2] at h
          simp at h

theorem tickScan_mem (t : ℚ) :
    ∀ (items : List RegistryItem) (pr : Nat × FrameRequest), pr ∈ (tickScan items t).2 →
      ∃ it ∈ items, it.worker = some pr.1 ∧ (scanGroup it t).2 = ScanAction.batch pr.2
  | [], pr, h => by simp [tickScan] at h
  | item :: rest, pr, h => by
    unfold tickScan at h
    have hlift : pr ∈ (tickScan rest t).2 →
        ∃ it ∈ item :: rest, it.worker = some pr.1
          ∧ (scanGroup it t).2 = ScanAction.batch pr.2 := by
      intro h2
      obtain ⟨it, hmem, h3, h4⟩ := tickScan_mem t rest pr h2
      exact ⟨it, List.mem_cons_of_mem _ hmem, h3, h4⟩
    cases hw : item.worker with
    | none =>
      rw [hw] at h
      exact hlift h
    | some w =>
      rw [hw] at h
      cases hact : (scanGroup item t).2 with
      | batch req =>
        rw [hact] at h
        simp only [List.mem_cons] at h
        rcases h with h1 | h1
        · refine ⟨item, List.mem_cons_self _ _, ?_, ?_⟩
          · rw [hw, h1]
          · rw [hact, h1]
        · exact hlift h1
      | idle =>
        rw [hact] at h
        exact hlift h
      | fromCache req img =>
        rw [hact] at h
        exact hlift h
      | skip req =>
        rw [hact] at h
        exact hlift h

/-- C6: when the computed target frame equals the frame every player of the
group has already rendered, the tick emits no batch request for the group
(`shouldRenderFrame` is false); and the per-group paint step never repaints a
player whose rendered frame equals the painted frame (it is skipped entirely:
state, events and budget untouched). -/
theorem no_redundant_render (item : RegistryItem) (fp : Player) (t : ℚ) (w : Nat)
    (_hw : item.worker = some w)
    (hfind : item.players.find? isPlaying = some fp)
    (hall : ∀ p ∈ item.players, p.frame = (scanReq item fp t).frame) :
    (∀ req : FrameRequest, (scanGroup item t).2 ≠ ScanAction.batch req)
    ∧ (∀ (frame : Int) (rest : List Player) (prev : Option Nat) (budget : Int) (p : Player),
        p.frame = frame →
        renderGroupGo frame (p :: rest) prev budget =
          (p :: (renderGroupGo frame rest prev budget).1,
            (renderGroupGo frame rest prev budget).2.1,
            (renderGroupGo frame rest prev budget).2.2)) := by
  constructor
  · intro req hbatch
    obtain ⟨fp2, hf2, hreq2, hsr2⟩ := scanGroup_batch_inv item t req hbatch
    rw [hfind] at hf2
    cases hf2
    unfold shouldRenderFrame at hsr2
    rw [List.any_eq_true] at hsr2
    obtain ⟨p, hp, hsp⟩ := hsr2
    unfold shouldRenderPlayer at hsp
    simp only [Bool.and_eq_true, decide_eq_true_eq] at hsp
    exact hsp.2 (hall p hp)
  · intro frame rest prev budget p hpf
    have hguard : (isPlaying p && shouldRenderPlayer p frame) = false := by
      simp [shouldRenderPlayer, hpf]
    simp [renderGroupGo, hguard]

/-- Concrete looping player already at the target frame, for the C6 witness. -/
def playerC6 : Player :=
  { id := 4, width := 30, height := 30, loop := true, paused := false,
    frame := 0, totalFrames := 3, frameRate := 1000 }

/-- Concrete registry entry for the C6 witness: started 0 ms of playback ago,
so the target frame is again frame 0, which every player already shows. -/
def itemC6 : RegistryItem :=
  { id := 4, players := [playerC6], frame := 0, frameRate := 1000, totalFrames := 3,
    start := 5, frameCache := none, worker := some 2 }

theorem scanReq_itemC6 : scanReq itemC6 playerC6 5 = { id := 4, width := 30, height := 30, frame := 0 } := by
  have hstart : scanStart itemC6 playerC6 5 = 5 := by
    unfold scanStart
    rw [if_neg]
    · rfl
    · norm_num [itemC6]
  have hfl : (⌊((5 : ℚ) - 5) / frameTime playerC6⌋ : ℤ) = 0 := by
    apply floor_eq_of_eq_intCast
    norm_num [frameTime, playerC6]
  unfold scanReq toFrameRequest
  rw [hstart, hfl]
  norm_num [playerC6, lastFrame]

/-- C6 witness: the theorem instantiated at the concrete group whose single
player has already rendered the target frame. -/
theorem no_redundant_render_witness :
    itemC6.worker = some 2
    ∧ itemC6.players.find? isPlaying = some playerC6
    ∧ (∀ p ∈ itemC6.players, p.frame = (scanReq itemC6 playerC6 5).frame)
    ∧ ((∀ req : FrameRequest, (scanGroup itemC6 5).2 ≠ ScanAction.batch req)
      ∧ (∀ (frame : Int) (rest : List Player) (prev : Option Nat) (budget : Int) (p : Player),
          p.frame = frame →
          renderGroupGo frame (p :: rest) prev budget =
            (p :: (renderGroupGo frame rest prev budget).1,
              (renderGroupGo frame rest prev budget).2.1,
              (renderGroupGo frame rest prev budget).2.2))) := by
  have hall : ∀ p ∈ itemC6.players, p.frame = (scanReq itemC6 playerC6 5).frame := by
    intro p hp
    rw [scanReq_itemC6]
    simp only [itemC6, List.mem_singleton] at hp
    rw [hp]
    rfl
  exact ⟨rfl, rfl, hall, no_redundant_render itemC6 playerC6 5 2 rfl rfl hall⟩

/-- C5: when the group's cache holds a buffer for the target frame at least as
large as requested, the tick paints the group directly from that buffer
(`fromCache`) and no worker batch of the tick contains a request for that
group; moreover, with caching enabled, a worker response is written into the
cache and can be looked up at its frame afterwards. -/
theorem cache_hit_no_request (cfg : SchedConfig) (item : RegistryItem) (fp : Player) (t : ℚ)
    (cache : List (Int × ImageData)) (img : ImageData) (w : Nat)
    (hcfg : cfg.cacheFrames = true)
    (hw : item.worker = some w)
    (hfind : item.players.find? isPlaying = some fp)
    (hcache : item.frameCache = some cache)
    (hit : cacheLookup cache (scanReq item fp t).frame = some img)
    (hwidth : (scanReq item fp t).width ≤ img.width)
    (hheight : (scanReq item fp t).height ≤ img.height) :
    (scanGroup item t).2 = ScanAction.fromCache (scanReq item fp t) img
    ∧ (∀ items : List RegistryItem, item ∈ items →
        (∀ it ∈ items, ∀ p ∈ it.players, p.id = it.id) →
        items.Pairwise (fun a b => a.id ≠ b.id) →
        ∀ pr ∈ (tickScan items t).2, pr.2.id ≠ item.id)
    ∧ (∀ (item2 : RegistryItem) (payload : FrameResponse) (budget : Int),
        item2.totalFrames ≠ -1 →
        cacheLookup ((renderFrameResponse cfg item2 payload budget).1.frameCache.getD [])
            payload.frame
          = some { width := payload.width, height := payload.height, data := payload.data }) := by
  have hcf : getCachedFrame item (scanReq item fp t) = some img := by
    simp [getCachedFrame, hcache, hit, hwidth, hheight]
  have hmain : (scanGroup item t).2 = ScanAction.fromCache (scanReq item fp t) img := by
    rw [scanGroup_cache item fp t w img hw hfind hcf]
  refine ⟨hmain, ?_, ?_⟩
  · intro items hmem hcoh hpair pr hpr heq
    obtain ⟨it, hitmem, hitw, hitbatch⟩ := tickScan_mem t items pr hpr
    obtain ⟨fp2, hf2, hreq2, _⟩ := scanGroup_batch_inv it t pr.2 hitbatch
    have hfpmem : fp2 ∈ it.players := List.mem_of_find?_eq_some hf2
    have hid : pr.2.id = it.id := by
      rw [hreq2]
      unfold scanReq toFrameRequest
      exact hcoh it hitmem fp2 hfpmem
    by_cases hsame : it = item
    · subst hsame
      rw [hmain] at hitbatch
      cases hitbatch
    · have hne : it.id ≠ item.id := by
        have hsymm : Symmetric (fun a b : RegistryItem => a.id ≠ b.id) := by
          intro a b hab
          exact fun hba => hab hba.symm
        exact hpair.forall hsymm hitmem hmem hsame
      exact hne (hid ▸ heq)
  · intro item2 payload budget hmount
    unfold renderFrameResponse
    simp only [hcfg, if_pos]
    unfold setCachedFrame
    rw [if_pos hmount]
    simp [cacheLookup, List.find?]

/-- Concrete looping player on its second pass for the C5 witness: frame 1 is
currently shown, the target frame wraps back to 0, which is cached. -/
def playerC5 : Player :=
  { id := 5, width := 30, height := 30, loop := true, paused := false,
    frame := 1, totalFrames := 3, frameRate := 1000 }

/-- Cached buffer for frame 0, exactly the requested size. -/
def imgC5 : ImageData := { width := 30, height := 30, data := [7] }

/-- Concrete registry entry for the C5 witness. -/
def itemC5 : RegistryItem :=
  { id := 5, players := [playerC5], frame := 1, frameRate := 1000, totalFrames := 3,
    start := 5, frameCache := some [(0, imgC5)], worker := some 2 }

theorem scanReq_itemC5 : scanReq itemC5 playerC5 9 = { id := 5, width := 30, height := 30, frame := 0 } := by
  have hstart : scanStart itemC5 playerC5 9 = 5 := by
    unfold scanStart
    rw [if_neg]
    · rfl
    · norm_num [itemC5]
  have hfl : (⌊((9 : ℚ) - 5) / frameTime playerC5⌋ : ℤ) = 4 := by
    apply floor_eq_of_eq_intCast
    norm_num [frameTime, playerC5]
  unfold scanReq toFrameRequest
  rw [hstart, hfl]
  norm_num [playerC5, lastFrame]
  decide

/-- C5 witness: the theorem instantiated at the concrete second-pass group with
a cache hit for target frame 0, discharging each hypothesis. -/
theorem cache_hit_no_request_witness :
    (⟨true, 0⟩ : SchedConfig).cacheFrames = true
    ∧ itemC5.worker = some 2
    ∧ itemC5.players.find? isPlaying = some playerC5
    ∧ itemC5.frameCache = some [(0, imgC5)]
    ∧ cacheLookup [(0, imgC5)] (scanReq itemC5 playerC5 9).frame = some imgC5
    ∧ (scanReq itemC5 playerC5 9).width ≤ imgC5.width
    ∧ (scanReq itemC5 playerC5 9).height ≤ imgC5.height
    ∧ ((scanGroup itemC5 9).2 = ScanAction.fromCache (scanReq itemC5 playerC5 9) imgC5
      ∧ (∀ items : List RegistryItem, itemC5 ∈ items →
          (∀ it ∈ items, ∀ p ∈ it.players, p.id = it.id) →
          items.Pairwise (fun a b => a.id ≠ b.id) →
          ∀ pr ∈ (tickScan items 9).2, pr.2.id ≠ itemC5.id)
      ∧ (∀ (item2 : RegistryItem) (payload : FrameResponse) (budget : Int),
          item2.totalFrames ≠ -1 →
          cacheLookup
              ((renderFrameResponse ⟨true, 0⟩ item2 payload budget).1.frameCache.getD [])
              payload.frame
            = some { width := payload.width, height := payload.height, data := payload.data })) := by
  have hit : cacheLookup [(0, imgC5)] (scanReq itemC5 playerC5 9).frame = some imgC5 := by
    rw [scanReq_itemC5]
    rfl
  have hwidth : (scanReq itemC5 playerC5 9).width ≤ imgC5.width := by
    rw [scanReq_itemC5]
    decide
  have hheight : (scanReq itemC5 playerC5 9).height ≤ imgC5.height := by
    rw [scanReq_itemC5]
    decide
  exact ⟨rfl, rfl, rfl, rfl, hit, hwidth, hheight,
    cache_hit_no_request ⟨true, 0⟩ itemC5 playerC5 9 [(0, imgC5)] imgC5 2
      rfl rfl rfl rfl hit hwidth hheight⟩

/-- Pool bounds from the configuration (`src/lib/config.ts`). -/
structure PoolConfig where
  maxWorkers : Nat
  playersPerWorker : Nat
deriving DecidableEq, Repr

/-- A pooled worker instance (`WorkerInstance` in `src/lib/worker-pool.ts`),
reduced to its id and reference count (`refs`, the load). -/
structure PoolWorker where
  wid : Nat
  refs : Nat
deriving DecidableEq, Repr

/-- State of the module: the pool array and the `workerId` counter. -/
structure PoolState where
  pool : List PoolWorker
  nextId : Nat
deriving DecidableEq, Repr

/-- Initial module state: empty pool, `workerId = 1`. -/
def initPoolState : PoolState := { pool := [], nextId := 1 }

/-- One step of the minimum tracking in the allocWorker loop:
`if (!minPlayersWorker || minPlayersWorker.refs > item.refs) minPlayersWorker = item`. -/
def minStep (m : Option PoolWorker) (w : PoolWorker) : Option PoolWorker :=
  match m with
  | none => some w
  | some mw => if mw.refs > w.refs then some w else some mw

/-- The allocWorker scan loop: returns the first worker below capacity (and
breaks), otherwise tracks the worker with the least load. -/
def scanPool (cap : Nat) : List PoolWorker → Option PoolWorker → Option PoolWorker × Option PoolWorker
  | [], m => (none, m)
  | w :: rest, m =>
    if w.refs < cap then (some w, m) else scanPool cap rest (minStep m w)

/-- How allocWorker satisfied a request: reuse of a below-capacity worker,
soft overflow onto the least-loaded worker, or creation of a new worker. -/
inductive AllocChoice where
  | existing (w : PoolWorker)
  | overflow (w : PoolWorker)
  | created (w : PoolWorker)
deriving DecidableEq, Repr

/-- `worker.refs++` applied to the worker with the given id. -/
def bumpRefs (pool : List PoolWorker) (i : Nat) : List PoolWorker :=
  pool.map (fun w => if w.wid = i then { w with refs := w.refs + 1 } else w)

/-- allocWorker from `src/lib/worker-pool.ts`: prefer an existing worker below
`playersPerWorker`; else, if the pool is already at `maxWorkers`, overflow onto
the least-loaded worker; else create a new worker (pushed, then `refs++`). -/
def allocWorker (cfg : PoolConfig) (s : PoolState) : PoolState × AllocChoice :=
  match (scanPool cfg.playersPerWorker s.pool none).1 with
  | some w => ({ s with pool := bumpRefs s.pool w.wid }, AllocChoice.existing w)
  | none =>
    match (scanPool cfg.playersPerWorker s.pool none).2 with
    | some mw =>
      if s.pool.length ≥ cfg.maxWorkers then
        ({ s with pool := bumpRefs s.pool mw.wid }, AllocChoice.overflow mw)
      else
        ({ pool := s.pool ++ [{ wid := s.nextId, refs := 1 }], nextId := s.nextId + 1 },
          AllocChoice.created { wid := s.nextId, refs := 1 })
    | none =>
      ({ pool := s.pool ++ [{ wid := s.nextId, refs := 1 }], nextId := s.nextId + 1 },
        AllocChoice.created { wid := s.nextId, refs := 1 })

/-- releaseWorker from `src/lib/worker-pool.ts`: decrement the load of the given
worker; at zero it is disposed and removed from the pool. -/
def releaseWorker (s : PoolState) (i : Nat) : PoolState :=
  { s with pool := s.pool.filterMap (fun w =>
      if w.wid = i then
        if w.refs ≤ 1 then none else some { w with refs := w.refs - 1 }
      else some w) }

/-- An acquire or release operation against the pool. -/
inductive PoolOp where
  | alloc
  | release (i : Nat)
deriving DecidableEq, Repr

/-- Apply one pool operation. -/
def applyPoolOp (cfg : PoolConfig) (s : PoolState) : PoolOp → PoolState
  | PoolOp.alloc => (allocWorker cfg s).1
  | PoolOp.release i => releaseWorker s i

/-- Apply a sequence of acquire/release operations. -/
def applyPoolOps (cfg : PoolConfig) : List PoolOp → PoolState → PoolState
  | [], s => s
  | op :: rest, s => applyPoolOps cfg rest (applyPoolOp cfg s op)

theorem scanPool_fst (cap : Nat) :
    ∀ (pool : List PoolWorker) (m : Option PoolWorker),
      (scanPool cap pool m).1 = pool.find? (fun w => w.refs < cap)
  | [], m => by simp [scanPool]
  | w :: rest, m => by
    unfold scanPool
    by_cases hw : w.refs < cap
    · rw [if_pos hw]
      rw [List.find?_cons_of_pos _ (by simpa using hw)]
    · rw [if_neg hw]
      rw [List.find?_cons_of_neg _ (by simpa using hw)]
      exact scanPool_fst cap rest (minStep m w)

theorem scanPool_snd (cap : Nat) :
    ∀ (pool : List PoolWorker) (m : Option PoolWorker),
      pool.find? (fun w => w.refs < cap) = none →
      (scanPool cap pool m).2 = pool.foldl minStep m
  | [], m, _ => by simp [scanPool]
  | w :: rest, m, h => by
    rw [List.find?_cons] at h
    by_cases hw : w.refs < cap
    · simp [hw] at h
    · unfold scanPool
      rw [if_neg hw]
      simp only [List.foldl_cons]
      exact scanPool_snd cap rest (minStep m w) (by simpa [hw] using h)

theorem foldl_minStep_none :
    ∀ (pool : List PoolWorker), pool.foldl minStep none = none ↔ pool = [] := by
  intro pool
  cases pool with
  | nil => simp
  | cons w rest =>
    simp only [List.foldl_cons, minStep]
    constructor
    · intro h
      exfalso
      -- folding from a `some` accumulator never returns `none`
      have : ∀ (l : List PoolWorker) (a : PoolWorker), l.foldl minStep (some a) ≠ none := by
        intro l
        induction l with
        | nil => intro a h2; cases h2
        | cons x xs ih =>
          intro a h2
          rw [List.foldl_cons] at h2
          simp only [minStep] at h2
          by_cases hx : a.refs > x.refs
          · rw [if_pos hx] at h2
            exact ih x h2
          · rw [if_neg hx] at h2
            exact ih a h2
      exact this rest w h
    · intro h
      cases h

theorem foldl_minStep_min :
    ∀ (pool : List PoolWorker) (a mw : PoolWorker),
      pool.foldl minStep (some a) = some mw →
      (mw ∈ pool ∨ mw = a) ∧ mw.refs ≤ a.refs ∧ ∀ w ∈ pool, mw.refs ≤ w.refs
  | [], a, mw, h => by
    simp [List.foldl] at h
    simp [h]
  | x :: xs, a, mw, h => by
    rw [List.foldl_cons] at h
    simp only [minStep] at h
    by_cases hx : a.refs > x.refs
    · rw [if_pos hx] at h
      obtain ⟨hmem, hle, hall⟩ := foldl_minStep_min xs x mw h
      refine ⟨?_, by omega, ?_⟩
      · rcases hmem with h1 | h1
        · exact Or.inl (List.mem_cons_of_mem _ h1)
        · exact Or.inl (h1 ▸ List.mem_cons_self _ _)
      · intro w hw
        rcases List.mem_cons.mp hw with h1 | h1
        · subst h1
          omega
        · exact hall w h1
    · rw [if_neg hx] at h
      obtain ⟨hmem, hle, hall⟩ := foldl_minStep_min xs a mw h
      refine ⟨?_, hle, ?_⟩
      · rcases hmem with h1 | h1
        · exact Or.inl (List.mem_cons_of_mem _ h1)
        · exact Or.inr h1
      · intro w hw
        rcases List.mem_cons.mp hw with h1 | h1
        · subst h1
          omega
        · exact hall w h1

theorem allocWorker_len (cfg : PoolConfig) (h : 1 ≤ cfg.maxWorkers) (s : PoolState)
    (hs : s.pool.length ≤ cfg.maxWorkers) :
    (allocWorker cfg s).1.pool.length ≤ cfg.maxWorkers := by
  rcases hscan : scanPool cfg.playersPerWorker s.pool none with ⟨f, m⟩
  have h1 : (scanPool cfg.playersPerWorker s.pool none).1 = f := by rw [hscan]
  have h2 : (scanPool cfg.playersPerWorker s.pool none).2 = m := by rw [hscan]
  cases f with
  | some w =>
    simp only [allocWorker, h1]
    simpa [bumpRefs] using hs
  | none =>
    cases m with
    | some mw =>
      simp only [allocWorker, h1, h2]
      by_cases hlen : s.pool.length ≥ cfg.maxWorkers
      · rw [if_pos hlen]
        simpa [bumpRefs] using hs
      · rw [if_neg hlen]
        simp only [List.length_append, List.length_cons, List.length_nil]
        omega
    | none =>
      simp only [allocWorker, h1, h2]
      have hfind : s.pool.find? (fun x => x.refs < cfg.playersPerWorker) = none := by
        have := scanPool_fst cfg.playersPerWorker s.pool none
        rw [hscan] at this
        exact this.symm
      have hfold := scanPool_snd cfg.playersPerWorker s.pool none hfind
      rw [hscan] at hfold
      have hempty : s.pool = [] := (foldl_minStep_none s.pool).mp hfold.symm
      simp only [hempty, List.nil_append, List.length_cons, List.length_nil]
      omega

theorem applyPoolOps_len (cfg : PoolConfig) (h : 1 ≤ cfg.maxWorkers) :
    ∀ (ops : List PoolOp) (s : PoolState), s.pool.length ≤ cfg.maxWorkers →
      (applyPoolOps cfg ops s).pool.length ≤ cfg.maxWorkers
  | [], s, hs => hs
  | op :: rest, s, hs => by
    unfold applyPoolOps
    apply applyPoolOps_len cfg h rest
    cases op with
    | alloc => exact allocWorker_len cfg h s hs
    | release i =>
      unfold applyPoolOp releaseWorker
      calc (s.pool.filterMap _).length ≤ s.pool.length := List.length_filterMap_le _ _
        _ ≤ cfg.maxWorkers := hs

theorem allocWorker_existing (cfg : PoolConfig) (s : PoolState) (w : PoolWorker)
    (hch : (allocWorker cfg s).2 = AllocChoice.existing w) :
    s.pool.find? (fun x => x.refs < cfg.playersPerWorker) = some w := by
  rcases hscan : scanPool cfg.playersPerWorker s.pool none with ⟨f, m⟩
  have h1 : (scanPool cfg.playersPerWorker s.pool none).1 = f := by rw [hscan]
  have h2 : (scanPool cfg.playersPerWorker s.pool none).2 = m := by rw [hscan]
  have hfst := scanPool_fst cfg.playersPerWorker s.pool none
  rw [hscan] at hfst
  cases f with
  | some w2 =>
    simp only [allocWorker, h1] at hch
    simp at hch
    have hfst2 : s.pool.find? (fun x => x.refs < cfg.playersPerWorker) = some w2 := hfst.symm
    rw [hfst2, hch]
  | none =>
    cases m with
    | some mw =>
      simp only [allocWorker, h1, h2] at hch
      by_cases hlen : s.pool.length ≥ cfg.maxWorkers
      · rw [if_pos hlen] at hch
        simp at hch
      · rw [if_neg hlen] at hch
        simp at hch
    | none =>
      simp only [allocWorker, h1, h2] at hch
      simp at hch

theorem allocWorker_overflow (cfg : PoolConfig) (s : PoolState) (w : PoolWorker)
    (hch : (allocWorker cfg s).2 = AllocChoice.overflow w) :
    cfg.maxWorkers ≤ s.pool.length ∧ w ∈ s.pool
      ∧ ∀ x ∈ s.pool, cfg.playersPerWorker ≤ x.refs ∧ w.refs ≤ x.refs := by
  rcases hscan : scanPool cfg.playersPerWorker s.pool none with ⟨f, m⟩
  have h1 : (scanPool cfg.playersPerWorker s.pool none).1 = f := by rw [hscan]
  have h2 : (scanPool cfg.playersPerWorker s.pool none).2 = m := by rw [hscan]
  have hfst : f = s.pool.find? (fun x => x.refs < cfg.playersPerWorker) := by
    rw [← h1, scanPool_fst]
  cases f with
  | some w2 =>
    simp only [allocWorker, h1] at hch
    simp at hch
  | none =>
    cases m with
    | none =>
      simp only [allocWorker, h1, h2] at hch
      simp at hch
    | some mw =>
      simp only [allocWorker, h1, h2] at hch
      by_cases hlen : s.pool.length ≥ cfg.maxWorkers
      · rw [if_pos hlen] at hch
        have hmw : mw = w := by
          simpa using hch
        subst hmw
        have hfind : s.pool.find? (fun x => x.refs < cfg.playersPerWorker) = none := hfst.symm
        have hcap : ∀ x ∈ s.pool, cfg.playersPerWorker ≤ x.refs := by
          intro x hx
          have := List.find?_eq_none.mp hfind x hx
          simpa using this
        have hfold : List.foldl minStep none s.pool = some mw := by
          have hf2 := scanPool_snd cfg.playersPerWorker s.pool none hfind
          rw [hscan] at hf2
          exact hf2.symm
        rcases hpool : s.pool with _ | ⟨x, xs⟩
        · rw [hpool] at hfold
          simp at hfold
        · rw [hpool, List.foldl_cons] at hfold
          have hstep : minStep none x = some x := rfl
          rw [hstep] at hfold
          obtain ⟨hmem, hle, hall⟩ := foldl_minStep_min xs x mw hfold
          rw [hpool] at hlen hcap
          refine ⟨hlen, ?_, ?_⟩
          · rcases hmem with hm1 | hm1
            · exact List.mem_cons_of_mem _ hm1
            · exact hm1 ▸ List.mem_cons_self _ _
          · intro y hy
            rcases List.mem_cons.mp hy with hm1 | hm1
            · subst hm1
              exact ⟨hcap y (List.mem_cons_self _ _), hle⟩
            · exact ⟨hcap y (List.mem_cons_of_mem _ hm1), hall y hm1⟩
      · rw [if_neg hlen] at hch
        simp at hch

theorem allocWorker_creates (cfg : PoolConfig) (s : PoolState)
    (hcap : ∀ x ∈ s.pool, cfg.playersPerWorker ≤ x.refs)
    (hlen : s.pool.length < cfg.maxWorkers) :
    ∃ w, (allocWorker cfg s).2 = AllocChoice.created w
      ∧ (allocWorker cfg s).1.pool.length = s.pool.length + 1 := by
  have hfind : s.pool.find? (fun x => x.refs < cfg.playersPerWorker) = none := by
    rw [List.find?_eq_none]
    intro x hx
    simp only [decide_eq_true_eq, not_lt]
    exact hcap x hx
  rcases hscan : scanPool cfg.playersPerWorker s.pool none with ⟨f, m⟩
  have hfst := scanPool_fst cfg.playersPerWorker s.pool none
  rw [hscan] at hfst
  have hf : f = none := by
    have : f = s.pool.find? (fun x => x.refs < cfg.playersPerWorker) := hfst
    rw [this, hfind]
  subst hf
  have h1 : (scanPool cfg.playersPerWorker s.pool none).1 = none := by rw [hscan]
  have h2 : (scanPool cfg.playersPerWorker s.pool none).2 = m := by rw [hscan]
  cases m with
  | none =>
    simp only [allocWorker, h1, h2]
    exact ⟨_, rfl, by simp⟩
  | some mw =>
    simp only [allocWorker, h1, h2]
    rw [if_neg (by omega)]
    exact ⟨_, rfl, by simp⟩

theorem allocWorker_prefers_existing (cfg : PoolConfig) (s : PoolState) (w : PoolWorker)
    (hfind : s.pool.find? (fun x => x.refs < cfg.playersPerWorker) = some w) :
    (allocWorker cfg s).2 = AllocChoice.existing w
      ∧ (allocWorker cfg s).1.pool = bumpRefs s.pool w.wid := by
  have h1 : (scanPool cfg.playersPerWorker s.pool none).1 = some w := by
    rw [scanPool_fst, hfind]
  refine ⟨?_, ?_⟩ <;> simp only [allocWorker, h1]

/-- C2 counterexample: the claim as stated fails when zero workers are
configured — a single acquire on an empty pool still creates one worker, so the
pool exceeds `maxWorkers = 0`. -/
theorem workerPool_exceeds_zero_max :
    ¬ ((applyPoolOps { maxWorkers := 0, playersPerWorker := 5 } [PoolOp.alloc]
          initPoolState).pool.length
        ≤ ({ maxWorkers := 0, playersPerWorker := 5 } : PoolConfig).maxWorkers) := by
  decide

/-- C2 (amended, for at least one configured worker): over any acquire/release
sequence the pool never holds more than `maxWorkers` workers; whenever a worker
below `playersPerWorker` exists, allocWorker does choose the first such worker
(never creating or overflowing past it), and conversely an `existing` choice is
always that first below-capacity worker; overflow assignment happens only with
the pool at `maxWorkers`, and then picks a least-loaded existing worker; and
when every worker is at capacity but the pool is below `maxWorkers`, a new
worker is created. -/
theorem workerPool_bounded_preference (cfg : PoolConfig) (h : 1 ≤ cfg.maxWorkers) :
    (∀ ops : List PoolOp, (applyPoolOps cfg ops initPoolState).pool.length ≤ cfg.maxWorkers)
    ∧ (∀ (s : PoolState) (w : PoolWorker),
        s.pool.find? (fun x => x.refs < cfg.playersPerWorker) = some w →
        (allocWorker cfg s).2 = AllocChoice.existing w
          ∧ (allocWorker cfg s).1.pool = bumpRefs s.pool w.wid)
    ∧ (∀ (s : PoolState) (w : PoolWorker), (allocWorker cfg s).2 = AllocChoice.existing w →
        s.pool.find? (fun x => x.refs < cfg.playersPerWorker) = some w)
    ∧ (∀ (s : PoolState) (w : PoolWorker), (allocWorker cfg s).2 = AllocChoice.overflow w →
        cfg.maxWorkers ≤ s.pool.length ∧ w ∈ s.pool
          ∧ ∀ x ∈ s.pool, cfg.playersPerWorker ≤ x.refs ∧ w.refs ≤ x.refs)
    ∧ (∀ s : PoolState, (∀ x ∈ s.pool, cfg.playersPerWorker ≤ x.refs) →
        s.pool.length < cfg.maxWorkers →
        ∃ w, (allocWorker cfg s).2 = AllocChoice.created w
          ∧ (allocWorker cfg s).1.pool.length = s.pool.length + 1)
    ∧ (∀ (ops : List PoolOp) (w : PoolWorker),
        (allocWorker cfg (applyPoolOps cfg ops initPoolState)).2 = AllocChoice.overflow w →
        (applyPoolOps cfg ops initPoolState).pool.length = cfg.maxWorkers) :=
  ⟨fun ops => applyPoolOps_len cfg h ops initPoolState (by simp [initPoolState]),
    allocWorker_prefers_existing cfg,
    allocWorker_existing cfg,
    allocWorker_overflow cfg,
    allocWorker_creates cfg,
    fun ops w hch =>
      le_antisymm
        (applyPoolOps_len cfg h ops initPoolState (by simp [initPoolState]))
        (allocWorker_overflow cfg _ w hch).1⟩

/-- C2 witness: the spec scenario — capacity 2 per worker, 2 workers max,
five acquisitions.  The hypothesis `1 ≤ maxWorkers` is discharged concretely. -/
theorem workerPool_bounded_preference_witness :
    1 ≤ ({ maxWorkers := 2, playersPerWorker := 2 } : PoolConfig).maxWorkers
    ∧ (applyPoolOps { maxWorkers := 2, playersPerWorker := 2 }
        [PoolOp.alloc, PoolOp.alloc, PoolOp.alloc, PoolOp.alloc, PoolOp.alloc]
        initPoolState).pool.length
        ≤ ({ maxWorkers := 2, playersPerWorker := 2 } : PoolConfig).maxWorkers :=
  ⟨by decide,
    (workerPool_bounded_preference { maxWorkers := 2, playersPerWorker := 2 } (by decide)).1
      [PoolOp.alloc, PoolOp.alloc, PoolOp.alloc, PoolOp.alloc, PoolOp.alloc]⟩

/-- Errors raised by the worker-pool transport (`worker-pool.ts`):
`Error('ETERMINATE')` and `Error('Worker is not mounted')`. -/
inductive PoolErr where
  | eterminate
  | workerNotMounted
deriving DecidableEq, Repr

/-- RPC-transport state of one `WorkerInstance` (`src/lib/worker-pool.ts`):
reference count, sequence counter, whether a worker process is attached, the
pending-request table (sequence numbers of unresolved completions) and whether
the readiness future was rejected. -/
structure WorkerInst where
  refs : Int
  seq : Nat
  worker : Bool
  requests : List Nat
  deferredFailed : Bool
deriving DecidableEq, Repr

/-- WorkerInstance.send: assigns the next sequence number (wrapped at the
`maxSeq` modulus); when a worker is attached it records a pending completion
and transmits, otherwise the returned future is rejected immediately. -/
def sendInst (w : WorkerInst) : WorkerInst × Option PoolErr :=
  let seq := (w.seq + 1) % 1000000
  if w.worker then ({ w with seq := seq, requests := w.requests ++ [seq] }, none)
  else ({ w with seq := seq }, some PoolErr.workerNotMounted)

/-- WorkerInstance.dispose: rejects every pending completion with the terminate
error, clears the table, then terminates the attached worker, or fails the
readiness future when none is attached.  Returns the new state and the
rejections issued, in table order. -/
def disposeInst (w : WorkerInst) : WorkerInst × List (Nat × PoolErr) :=
  let rejections := w.requests.map (fun s => (s, PoolErr.eterminate))
  if w.worker then ({ w with requests := [], worker := false }, rejections)
  else ({ w with requests := [], deferredFailed := true }, rejections)

/-- releaseWorker on one instance: `refs--`; at zero or below the instance is
disposed and removed from the pool (the Bool result). -/
def releaseInst (w : WorkerInst) : WorkerInst × List (Nat × PoolErr) × Bool :=
  if w.refs - 1 ≤ 0 then
    ((disposeInst { w with refs := w.refs - 1 }).1,
      (disposeInst { w with refs := w.refs - 1 }).2, true)
  else ({ w with refs := w.refs - 1 }, [], false)

/-- C3: releasing a worker to zero load rejects every pending completion in its
table with the terminate error — all of them, in table order — leaves the table
empty, and removes the worker; and a worker that has no attached process (the
failed-before-ready case) never records a pending completion in the first
place: `send` leaves its table unchanged and rejects immediately. -/
theorem release_rejects_all_pending (w : WorkerInst) (h : w.refs - 1 ≤ 0) :
    (releaseInst w).2.1 = w.requests.map (fun s => (s, PoolErr.eterminate))
    ∧ (releaseInst w).1.requests = []
    ∧ (∀ s ∈ w.requests, (s, PoolErr.eterminate) ∈ (releaseInst w).2.1)
    ∧ (releaseInst w).2.2 = true
    ∧ (∀ v : WorkerInst, v.worker = false →
        (sendInst v).1.requests = v.requests
        ∧ (sendInst v).2 = some PoolErr.workerNotMounted) := by
  refine ⟨?_, ?_, ?_, ?_, ?_⟩
  · unfold releaseInst disposeInst
    rw [if_pos h]
    split <;> rfl
  · unfold releaseInst disposeInst
    rw [if_pos h]
    split <;> rfl
  · intro s hs
    unfold releaseInst disposeInst
    rw [if_pos h]
    split <;> exact List.mem_map.mpr ⟨s, hs, rfl⟩
  · unfold releaseInst
    rw [if_pos h]
  · intro v hv
    unfold sendInst
    rw [hv]
    exact ⟨rfl, rfl⟩

/-- Concrete worker instance for the C3 witness: one reference left, a worker
attached and three pending completions. -/
def winstC3 : WorkerInst :=
  { refs := 1, seq := 9, worker := true, requests := [5, 6, 7], deferredFailed := false }

/-- C3 witness: releasing the concrete instance rejects all three pending
completions and empties the table. -/
theorem release_rejects_all_pending_witness :
    winstC3.refs - 1 ≤ 0
    ∧ ((releaseInst winstC3).2.1
        = winstC3.requests.map (fun s => (s, PoolErr.eterminate))
      ∧ (releaseInst winstC3).1.requests = []
      ∧ (∀ s ∈ winstC3.requests, (s, PoolErr.eterminate) ∈ (releaseInst winstC3).2.1)
      ∧ (releaseInst winstC3).2.2 = true
      ∧ (∀ v : WorkerInst, v.worker = false →
          (sendInst v).1.requests = v.requests
          ∧ (sendInst v).2 = some PoolErr.workerNotMounted)) :=
  ⟨by decide, release_rejects_all_pending winstC3 (by decide)⟩

theorem renderSettle_none (result : Nat → Option (List FrameResponse)) (wid : Nat)
    (h : result wid = none) : renderSettle result wid = [] := by
  simp [renderSettle, h]

/-- C4: a frame response is applied by the tick exactly when some dispatched
worker's render call settled successfully with a response containing it; a
worker whose call failed contributes an empty frame list (its batch simply
produces no frames this tick), and the other workers' responses are still
applied.  The dispatch is a total function: no per-worker failure escapes to
the scheduling loop. -/
theorem render_failure_isolated (batches : List (Nat × List FrameRequest))
    (result : Nat → Option (List FrameResponse)) :
    (∀ fr : FrameResponse, fr ∈ renderDispatch batches result ↔
      ∃ wb ∈ batches, ∃ fs, result wb.1 = some fs ∧ fr ∈ fs)
    ∧ (∀ wb ∈ batches, result wb.1 = none → renderSettle result wb.1 = []) := by
  constructor
  · intro fr
    unfold renderDispatch
    rw [List.mem_flatten]
    constructor
    · rintro ⟨s, hs, hfr⟩
      rw [List.mem_map] at hs
      obtain ⟨wb, hwb, rfl⟩ := hs
      cases hres : result wb.1 with
      | none =>
        rw [renderSettle_none _ _ hres] at hfr
        cases hfr
      | some fs =>
        refine ⟨wb, hwb, fs, hres, ?_⟩
        simpa [renderSettle, hres] using hfr
    · rintro ⟨wb, hwb, fs, hres, hfr⟩
      refine ⟨renderSettle result wb.1, List.mem_map.mpr ⟨wb, hwb, rfl⟩, ?_⟩
      simpa [renderSettle, hres] using hfr
  · intro wb _ hres
    exact renderSettle_none _ _ hres

/-- Stable insertion into a width-descending list: the new element goes after
every strictly wider element and before the first equal-or-narrower one. -/
def widthDescInsort (p : Player) : List Player → List Player
  | [] => [p]
  | q :: rest => if q.width > p.width then q :: widthDescInsort p rest else p :: q :: rest

/-- Stable width-descending sort (insertion sort). -/
def widthDescSort : List Player → List Player
  | [] => []
  | p :: rest => widthDescInsort p (widthDescSort rest)

/-- orderInstances from `src/player.ts`:
`item.players.sort((a, b) => b.width - a.width)` when the group has more than
one player.  JS `Array.prototype.sort` is stable, and a stable sort under a
total preorder has a unique result, so the stable insertion sort above
computes exactly what the source computes. -/
def orderInstances (players : List Player) : List Player :=
  if players.length > 1 then widthDescSort players else players

/-- Update the canvas size of the player at the given position (the object
mutation `canvas.width = ...; canvas.height = ...` of `Player.resize`). -/
def setAt : List Player → Nat → Int → Int → List Player
  | [], _, _, _ => []
  | q :: rest, 0, w, h => { q with width := w, height := h } :: rest
  | q :: rest, Nat.succ ix, w, h => q :: setAt rest ix w h

/-- Registry operations on one group's player list: `registerPlayer` (push then
re-sort); `unregisterPlayer` (filter, no re-sort); `Player.resize` of a mounted
player (update the canvas size, then the `resize` notification re-sorts via
`orderInstances`); and `Player.resize` of an unmounted player, which updates
the canvas size but emits no notification (`lib/Player.ts` guards the emit with
`this.mounted`), so no re-sort happens. -/
inductive RegOp where
  | register (p : Player)
  | unregister (p : Player)
  | resizeMounted (ix : Nat) (w : Int) (h : Int)
  | resizeUnmounted (ix : Nat) (w : Int) (h : Int)
deriving DecidableEq, Repr

/-- Apply one registry operation to the group's player list. -/
def applyRegOp (players : List Player) : RegOp → List Player
  | RegOp.register p => orderInstances (players ++ [p])
  | RegOp.unregister p => players.filter (fun q => decide (q ≠ p))
  | RegOp.resizeMounted ix w h => orderInstances (setAt players ix w h)
  | RegOp.resizeUnmounted ix w h => setAt players ix w h

/-- Whether an operation re-establishes the ordering (everything except the
resize of an unmounted player, which skips the re-sorting notification). -/
def sortingOp : RegOp → Bool
  | RegOp.resizeUnmounted _ _ _ => false
  | _ => true

/-- Apply a sequence of registry operations. -/
def applyRegOps : List RegOp → List Player → List Player
  | [], ps => ps
  | op :: rest, ps => applyRegOps rest (applyRegOp ps op)

theorem mem_widthDescInsort (p : Player) :
    ∀ (l : List Player) (q : Player), q ∈ widthDescInsort p l → q = p ∨ q ∈ l
  | [], q, h => by
    simp [widthDescInsort] at h
    exact Or.inl h
  | x :: rest, q, h => by
    unfold widthDescInsort at h
    by_cases hx : x.width > p.width
    · rw [if_pos hx] at h
      rcases List.mem_cons.mp h with h1 | h1
      · exact Or.inr (h1 ▸ List.mem_cons_self _ _)
      · rcases mem_widthDescInsort p rest q h1 with h2 | h2
        · exact Or.inl h2
        · exact Or.inr (List.mem_cons_of_mem _ h2)
    · rw [if_neg hx] at h
      rcases List.mem_cons.mp h with h1 | h1
      · exact Or.inl h1
      · exact Or.inr h1

theorem pairwise_widthDescInsort (p : Player) :
    ∀ l : List Player, l.Pairwise (fun a b => b.width ≤ a.width) →
      (widthDescInsort p l).Pairwise (fun a b => b.width ≤ a.width)
  | [], _ => by simp [widthDescInsort]
  | x :: rest, h => by
    rw [List.pairwise_cons] at h
    unfold widthDescInsort
    by_cases hx : x.width > p.width
    · rw [if_pos hx]
      rw [List.pairwise_cons]
      constructor
      · intro q hq
        rcases mem_widthDescInsort p rest q hq with h1 | h1
        · rw [h1]
          omega
        · exact h.1 q h1
      · exact pairwise_widthDescInsort p rest h.2
    · rw [if_neg hx]
      rw [List.pairwise_cons]
      constructor
      · intro q hq
        rcases List.mem_cons.mp hq with h1 | h1
        · rw [h1]
          omega
        · have := h.1 q h1
          omega
      · rw [List.pairwise_cons]
        exact h

theorem pairwise_widthDescSort :
    ∀ l : List Player, (widthDescSort l).Pairwise (fun a b => b.width ≤ a.width)
  | [] => by simp [widthDescSort]
  | p :: rest => pairwise_widthDescInsort p (widthDescSort rest) (pairwise_widthDescSort rest)

theorem pairwise_orderInstances (l : List Player) :
    (orderInstances l).Pairwise (fun a b => b.width ≤ a.width) := by
  unfold orderInstances
  split
  · exact pairwise_widthDescSort l
  · match l with
    | [] => simp
    | [x] => simp
    | x :: y :: rest => simp_all

theorem applyRegOp_pairwise (ps : List Player) (op : RegOp) (hop : sortingOp op = true)
    (h : ps.Pairwise (fun a b => b.width ≤ a.width)) :
    (applyRegOp ps op).Pairwise (fun a b => b.width ≤ a.width) := by
  cases op with
  | register p => exact pairwise_orderInstances _
  | unregister p => exact h.filter _
  | resizeMounted ix w hh => exact pairwise_orderInstances _
  | resizeUnmounted ix w hh => simp [sortingOp] at hop

/-- C8 (amended): after any sequence of register, unregister and mounted-resize
operations starting from the empty group, the player list is non-increasing by
output width.  Equal-width players keep their relative order (no height
tie-break), and the resize of an unmounted player — excluded by the
hypothesis — performs no re-sort and can leave the list unordered. -/
theorem instances_width_sorted (ops : List RegOp)
    (hops : ∀ op ∈ ops, sortingOp op = true) :
    (applyRegOps ops []).Pairwise (fun a b => b.width ≤ a.width) := by
  suffices hgen : ∀ (ops2 : List RegOp), (∀ op ∈ ops2, sortingOp op = true) →
      ∀ ps : List Player,
      ps.Pairwise (fun a b => b.width ≤ a.width) →
      (applyRegOps ops2 ps).Pairwise (fun a b => b.width ≤ a.width) by
    exact hgen ops hops [] (by simp)
  intro ops2
  induction ops2 with
  | nil => intro _ ps h; exact h
  | cons op rest ih =>
    intro hall ps h
    exact ih (fun o ho => hall o (List.mem_cons_of_mem _ ho)) (applyRegOp ps op)
      (applyRegOp_pairwise ps op (hall op (List.mem_cons_self _ _)) h)

/-- Modelled from the claim text of C8: non-increasing by width with ties
broken by height, the larger surface first. -/
def claimTieOrdered : List Player → Bool
  | [] => true
  | [_] => true
  | a :: b :: rest =>
    (decide (b.width < a.width) || (decide (a.width = b.width) && decide (b.height ≤ a.height)))
      && claimTieOrdered (b :: rest)

/-- Equal-width player with the smaller height, registered first. -/
def playerC8a : Player :=
  { id := 8, width := 100, height := 10, loop := false, paused := false,
    frame := -1, totalFrames := -1, frameRate := 60 }

/-- Equal-width player with the larger height, registered second. -/
def playerC8b : Player :=
  { id := 8, width := 100, height := 20, loop := false, paused := false,
    frame := -1, totalFrames := -1, frameRate := 60 }

/-- Wide unmounted player, registered first, later shrunk by an unmounted resize. -/
def playerC8c : Player :=
  { id := 9, width := 200, height := 200, loop := false, paused := false,
    frame := -1, totalFrames := -1, frameRate := 60 }

/-- Narrower unmounted player, registered second. -/
def playerC8d : Player :=
  { id := 9, width := 100, height := 100, loop := false, paused := false,
    frame := -1, totalFrames := -1, frameRate := 60 }

/-- C8 counterexample, two concrete runs violating the claim as stated.
First, registering two equal-width players with heights 10 then 20 leaves them
in insertion order (stable sort, no height comparison), so the taller one is
second — the claimed height tie-break does not hold.  Second, shrinking the
wide player of a `[200, 100]` group to width 50 while unmounted triggers no
re-sort (`Player.resize` emits the notification only when mounted), leaving
widths `[50, 100]` — not even non-increasing by width. -/
theorem orderInstances_no_height_tiebreak :
    ((applyRegOps [RegOp.register playerC8a, RegOp.register playerC8b] []).map
        (fun p => (p.width, p.height)) = [(100, 10), (100, 20)]
      ∧ claimTieOrdered
          (applyRegOps [RegOp.register playerC8a, RegOp.register playerC8b] []) = false)
    ∧ ((applyRegOps [RegOp.register playerC8c, RegOp.register playerC8d,
            RegOp.resizeUnmounted 0 50 50] []).map (fun p => p.width) = [50, 100]
      ∧ claimTieOrdered
          (applyRegOps [RegOp.register playerC8c, RegOp.register playerC8d,
            RegOp.resizeUnmounted 0 50 50] []) = false) := by
  exact ⟨⟨rfl, rfl⟩, ⟨rfl, rfl⟩⟩

/-- C8 witness: the amended invariant applied to a concrete run of sorting
operations (two registers, a mounted resize and an unregister), the
no-unmounted-resize hypothesis discharged concretely. -/
theorem instances_width_sorted_witness :
    (∀ op ∈ [RegOp.register playerC8c, RegOp.register playerC8d,
        RegOp.resizeMounted 0 40 40, RegOp.unregister playerC8d],
      sortingOp op = true)
    ∧ (applyRegOps [RegOp.register playerC8c, RegOp.register playerC8d,
        RegOp.resizeMounted 0 40 40, RegOp.unregister playerC8d] []).Pairwise
        (fun a b => b.width ≤ a.width) :=
  ⟨by decide,
    instances_width_sorted
      [RegOp.register playerC8c, RegOp.register playerC8d,
        RegOp.resizeMounted 0 40 40, RegOp.unregister playerC8d]
      (by decide)⟩

/-- State of one `WorkerInfo` of the queue-based transport (the historical
variant of the module): load, readiness flag, worker presence, the FIFO queue
of `{key, message}` entries buffered before readiness, and the log of messages
actually posted to the worker process, in order. -/
structure WorkerInfoQ where
  players : Nat
  loaded : Bool
  worker : Bool
  queue : List (Nat × Nat)
  transmitted : List Nat
deriving DecidableEq, Repr

/-- sendMessage of the queue-based transport: post directly when the worker is
loaded and attached, else append `{key, message}` to the send queue. -/
def sendMessage (info : WorkerInfoQ) (key : Nat) (message : Nat) : WorkerInfoQ :=
  if info.loaded && info.worker then
    { info with transmitted := info.transmitted ++ [message] }
  else
    { info with queue := info.queue ++ [(key, message)] }

/-- initWorker of the queue-based transport: marks the instance loaded, then
re-sends a copy of the queued messages in submission order, the queue cleared
first. -/
def initWorker (info : WorkerInfoQ) : WorkerInfoQ :=
  info.queue.foldl (fun acc kv => sendMessage acc kv.1 kv.2)
    { info with loaded := true, queue := [] }

theorem sendMessage_flush (q : List (Nat × Nat)) :
    ∀ acc : WorkerInfoQ, acc.loaded = true → acc.worker = true →
      (q.foldl (fun a kv => sendMessage a kv.1 kv.2) acc).transmitted
          = acc.transmitted ++ q.map (fun kv => kv.2)
      ∧ (q.foldl (fun a kv => sendMessage a kv.1 kv.2) acc).queue = acc.queue
      ∧ (q.foldl (fun a kv => sendMessage a kv.1 kv.2) acc).loaded = true := by
  induction q with
  | nil => intro acc h1 h2; simp [h1]
  | cons kv rest ih =>
    intro acc h1 h2
    rw [List.foldl_cons]
    have hsend : sendMessage acc kv.1 kv.2
        = { acc with transmitted := acc.transmitted ++ [kv.2] } := by
      unfold sendMessage
      rw [if_pos (by rw [h1, h2]; rfl)]
    rw [hsend]
    obtain ⟨ht, hq, hl⟩ := ih { acc with transmitted := acc.transmitted ++ [kv.2] } h1 h2
    refine ⟨?_, hq, hl⟩
    rw [ht]
    simp

/-- C9: a request sent before the worker's ready notification (not loaded, or
no process attached) is appended to the FIFO queue — the transmission log is
untouched; and `initWorker` on an instance with an attached worker empties the
queue and transmits exactly the queued messages, appended to the log in their
submission order. -/
theorem queue_fifo_flush :
    (∀ (info : WorkerInfoQ) (key message : Nat), (info.loaded && info.worker) = false →
      sendMessage info key message = { info with queue := info.queue ++ [(key, message)] })
    ∧ (∀ info : WorkerInfoQ, info.worker = true →
      (initWorker info).queue = []
      ∧ (initWorker info).transmitted = info.transmitted ++ info.queue.map (fun kv => kv.2)
      ∧ (initWorker info).loaded = true) := by
  constructor
  · intro info key message h
    unfold sendMessage
    rw [if_neg (by rw [h]; exact Bool.false_ne_true)]
  · intro info hworker
    unfold initWorker
    obtain ⟨ht, hq, hl⟩ := sendMessage_flush info.queue
      { info with loaded := true, queue := [] } rfl hworker
    exact ⟨hq, ht, hl⟩

/-- A worker-side player instance (`WorkerPlayerInstace` in `src/worker.ts`),
reduced to its frame count (the rasterizer itself is external). -/
structure WPInstance where
  totalFrames : Int
deriving DecidableEq, Repr

/-- The worker-side `instances` map, id to instance. -/
def instsLookup (insts : List (Nat × WPInstance)) (id : Nat) : Option WPInstance :=
  match insts.find? (fun e => e.1 = id) with
  | some e => some e.2
  | none => none

/-- WorkerPlayerInstace.render: renders only when `0 ≤ frame < totalFrames`,
returning the copied pixel buffer (supplied by the rasterizer oracle `buf`),
else `undefined`. -/
def winstRender (inst : WPInstance) (frame : Int) (buf : List Nat) : Option (List Nat) :=
  if 0 ≤ frame ∧ frame < inst.totalFrames then some buf else none

/-- A frame response assembled from a request and rendered data (`{ ...req, data }`). -/
def mkResp (req : FrameRequest) (data : List Nat) : FrameResponse :=
  { id := req.id, width := req.width, height := req.height, frame := req.frame, data := data }

/-- render from `src/worker.ts`: walks the request batch, pushing a response
for every request whose id has an instance and whose render produced data;
requests raising an exception (`exc` oracle) are silently skipped by the
try/catch. -/
def workerRenderGo (insts : List (Nat × WPInstance)) (exc : FrameRequest → Bool)
    (buf : FrameRequest → List Nat) :
    List FrameRequest → List FrameResponse → List FrameResponse
  | [], acc => acc
  | req :: rest, acc =>
    if exc req then workerRenderGo insts exc buf rest acc
    else
      match instsLookup insts req.id with
      | none => workerRenderGo insts exc buf rest acc
      | some inst =>
        match winstRender inst req.frame (buf req) with
        | some data => workerRenderGo insts exc buf rest (acc ++ [mkResp req data])
        | none => workerRenderGo insts exc buf rest acc

/-- The worker's render handler over a whole batch. -/
def workerRender (insts : List (Nat × WPInstance)) (exc : FrameRequest → Bool)
    (buf : FrameRequest → List Nat) (payload : List FrameRequest) : List FrameResponse :=
  workerRenderGo insts exc buf payload []

/-- Modelled from the claim text of C10: a request is answered exactly when it
raises no exception, its id names a created instance and its frame index lies
in `[0, totalFrames)`. -/
def renderAccepts (insts : List (Nat × WPInstance)) (exc : FrameRequest → Bool)
    (req : FrameRequest) : Bool :=
  !exc req &&
    match instsLookup insts req.id with
    | some inst => decide (0 ≤ req.frame ∧ req.frame < inst.totalFrames)
    | none => false

theorem workerRenderGo_eq (insts : List (Nat × WPInstance)) (exc : FrameRequest → Bool)
    (buf : FrameRequest → List Nat) :
    ∀ (payload : List FrameRequest) (acc : List FrameResponse),
      workerRenderGo insts exc buf payload acc
        = acc ++ (payload.filter (renderAccepts insts exc)).map (fun req => mkResp req (buf req))
  | [], acc => by simp [workerRenderGo]
  | req :: rest, acc => by
    unfold workerRenderGo
    by_cases hexc : exc req = true
    · rw [if_pos hexc]
      rw [workerRenderGo_eq insts exc buf rest acc]
      have : renderAccepts insts exc req = false := by
        simp [renderAccepts, hexc]
      rw [List.filter_cons_of_neg (by rw [this]; exact Bool.false_ne_true)]
    · rw [if_neg hexc]
      have hexc2 : exc req = false := by
        cases h : exc req
        · rfl
        · exact absurd h hexc
      cases hl : instsLookup insts req.id with
      | none =>
        rw [workerRenderGo_eq insts exc buf rest acc]
        have : renderAccepts insts exc req = false := by
          simp [renderAccepts, hexc2, hl]
        rw [List.filter_cons_of_neg (by rw [this]; exact Bool.false_ne_true)]
      | some inst =>
        dsimp only
        by_cases hrange : 0 ≤ req.frame ∧ req.frame < inst.totalFrames
        · have hrender : winstRender inst req.frame (buf req) = some (buf req) := by
            simp [winstRender, hrange]
          rw [hrender]
          dsimp only
          rw [workerRenderGo_eq insts exc buf rest (acc ++ [mkResp req (buf req)])]
          have : renderAccepts insts exc req = true := by
            simp [renderAccepts, hexc2, hl, hrange]
          rw [List.filter_cons_of_pos (by rw [this])]
          simp
        · have hrender : winstRender inst req.frame (buf req) = none := by
            simp [winstRender, hrange]
          rw [hrender]
          dsimp only
          rw [workerRenderGo_eq insts exc buf rest acc]
          have : renderAccepts insts exc req = false := by
            simp only [renderAccepts, hexc2, hl, Bool.not_false, Bool.true_and]
            simpa using hrange
          rw [List.filter_cons_of_neg (by rw [this]; exact Bool.false_ne_true)]

/-- C10: the worker's render response contains exactly the requested entries
that raise no exception, name a created instance and have a frame index in
`[0, totalFrames)` — in request order, each carrying the request's fields plus
the rendered buffer — and therefore never more frames than were requested. -/
theorem worker_render_filters (insts : List (Nat × WPInstance)) (exc : FrameRequest → Bool)
    (buf : FrameRequest → List Nat) (payload : List FrameRequest) :
    workerRender insts exc buf payload
      = (payload.filter (renderAccepts insts exc)).map (fun req => mkResp req (buf req))
    ∧ (workerRender insts exc buf payload).length ≤ payload.length := by
  have heq := workerRenderGo_eq insts exc buf payload []
  constructor
  · rw [workerRender, heq]
    simp
  · rw [workerRender, heq]
    simp only [List.nil_append, List.length_map]
    exact List.length_filter_le _ _

end LottieSpec
